import Mathlib

/-!
Verification of the record-expression engine and harvest partitioning logic
of the oaipmh harvester, via a shallow embedding of the Go sources
(`recordsearch.go` and the harvest command file) into Lean.

Conventions of the embedding:
* Go machine integers that only count upward from zero are modelled as `Nat`;
  Go integer division on non-negative operands agrees with `Nat.div`.
* Go's `error` results are modelled with `Except String` (native functions
  build their errors with `fmt.Errorf`, i.e. plain message strings).
* External collaborators (the `launchpad.net/xmlpath` library, the
  `strconv.Unquote` routine of the Go standard library, and the repository's
  `EscapeIdForFilename` helper, all declared out of scope by the spec) are
  modelled as parameters, so every theorem holds for an arbitrary behaviour
  of the collaborator.
* Filesystem and process side effects of the harvest command are modelled as
  explicit lists of operations (`FsOp`) returned alongside the new state.
-/

/-- Modelled from the spec: the `RecordResult` type is declared outside the
provided sources; the spec's Record contract exposes an `Identifier()`
accessor and a raw `Content` string, immutable once produced. -/
structure RecordResult where
  identifier : String
  content : String
deriving DecidableEq

/-- Go method `RecordResult.Identifier()` (accessor contract from the spec). -/
def RecordResult.Identifier (rr : RecordResult) : String :=
  rr.identifier

/-- `recordsearch.go` lines 43-75: the `RSExprValue` interface with its two
implementations `RSString` and `RSBool`. -/
inductive RSExprValue : Type where
  | RSString (s : String)
  | RSBool (b : Bool)
deriving DecidableEq

/-- Go methods `RSString.Bool()` / `RSBool.Bool()`: a string is truthy iff
non-empty; a boolean converts to itself. -/
def RSExprValue.toBool : RSExprValue → Bool
  | .RSString s => s ≠ ""
  | .RSBool b => b

/-- Go methods `RSString.String()` / `RSBool.String()`: a string converts to
itself; a boolean renders as `"true"` / `"false"`. -/
def RSExprValue.toStr : RSExprValue → String
  | .RSString s => s
  | .RSBool b => if b then "true" else "false"

/-- `recordsearch.go` line 78: the native function type
`func(rr *RecordResult, args []RSExprValue) (RSExprValue, error)`. -/
def RSNativeFunction : Type :=
  RecordResult → List RSExprValue → Except String RSExprValue

/-- `recordsearch.go` lines 85-119: AST nodes.  `RSExprFnCall` holds the
resolved native function and the ordered argument sub-expressions;
`RSExprLiteral` wraps a fixed value. -/
inductive RSExprAst : Type where
  | fnCall (fn : RSNativeFunction) (fnArgs : List RSExprAst)
  | literal (val : RSExprValue)

mutual

/-- `recordsearch.go` lines 99-112 and 121-123: the evaluator.  A literal
returns its held value; a function call evaluates the argument
sub-expressions left-to-right, returning the first error without invoking
the function, and otherwise applies the function to the record and the
evaluated argument values. -/
def RSExprAst.Evaluate : RSExprAst → RecordResult → Except String RSExprValue
  | .literal v, _ => .ok v
  | .fnCall fn args, rr =>
    match evalArgsList args rr with
    | .error e => .error e
    | .ok vals => fn rr vals

/-- The left-to-right loop of `RSExprFnCall.Evaluate` (lines 101-108): builds
the list of argument values, stopping at the first error. -/
def evalArgsList : List RSExprAst → RecordResult → Except String (List RSExprValue)
  | [], _ => .ok []
  | a :: rest, rr =>
    match a.Evaluate rr with
    | .error e => .error e
    | .ok v =>
      match evalArgsList rest rr with
      | .error e => .error e
      | .ok vs => .ok (v :: vs)

end

/-- `recordsearch.go` lines 26-28: a record searcher wrapping a parsed AST. -/
structure ExprRecordSearcher where
  ast : RSExprAst

/-- `recordsearch.go` lines 30-37: `SearchRecord` evaluates the AST; on error
it returns `(false, "", err)`, otherwise `(res.Bool(), res.String(), nil)`.
The Go `error` slot is modelled as an `Option String`. -/
def ExprRecordSearcher.SearchRecord (ers : ExprRecordSearcher) (rr : RecordResult) :
    Bool × String × Option String :=
  match ers.ast.Evaluate rr with
  | .error e => (false, "", some e)
  | .ok res => (res.toBool, res.toStr, none)

/-- The abstract interface of the external `launchpad.net/xmlpath` library
(declared out of scope by the spec): `Compile`, `Parse`, and `Path.String`
(which returns a string and an ok-flag). -/
structure XmlPathLib (Path Doc : Type) where
  compile : String → Except String Path
  parseDoc : String → Except String Doc
  pathString : Path → Doc → String × Bool

/-- `recordsearch.go` lines 279-296: the `xp` native function.  Checks arity
1, compiles the XPath, parses the record content, evaluates the path
(ignoring the ok-flag) and trims the result. -/
def xpFn {Path Doc : Type} (lib : XmlPathLib Path Doc) : RSNativeFunction :=
  fun rr args =>
    match args with
    | [a] =>
      match lib.compile a.toStr with
      | .error e => .error e
      | .ok path =>
        match lib.parseDoc rr.content with
        | .error e => .error e
        | .ok n =>
          .ok (.RSString (lib.pathString path n).1.trim)
    | _ => .error "xp() expects exactly 1 argument"

/-- `recordsearch.go` lines 300-306: the `concat` native function.  No arity
check; concatenates the `String()` form of all arguments in order. -/
def concatFn : RSNativeFunction :=
  fun _ args => .ok (.RSString (args.foldl (fun acc a => acc ++ a.toStr) ""))

/-- `recordsearch.go` lines 311-321: the `startsWith` native function. -/
def startsWithFn : RSNativeFunction :=
  fun _ args =>
    match args with
    | [a, b] =>
      if a.toStr.startsWith b.toStr then .ok a else .ok (.RSString "")
    | _ => .error "startsWith() expects exactly 2 argument"

/-- Substring containment, modelling Go's `strings.Contains`. -/
def strContainsSub (s sub : String) : Bool :=
  decide (sub.toList <:+: s.toList)

/-- `recordsearch.go` lines 326-336: the `contains` native function. -/
def containsFn : RSNativeFunction :=
  fun _ args =>
    match args with
    | [a, b] =>
      if strContainsSub a.toStr b.toStr then .ok a else .ok (.RSString "")
    | _ => .error "contains() expects exactly 2 argument"

/-- `recordsearch.go` lines 340-342: the `urn` native function.  Note that it
performs no arity check: whatever the argument list, it returns the record's
identifier. -/
def urnFn : RSNativeFunction :=
  fun rr _ => .ok (.RSString rr.Identifier)

/-- `recordsearch.go` lines 346-352: the `replace` native function.  It checks
arity 3 but its error message reads `contains() expects exactly 3 argument`
(a copy-paste slip in the source).  `strings.Replace(s, old, new, -1)`
(replace all occurrences) is modelled with `String.replace`. -/
def replaceFn : RSNativeFunction :=
  fun _ args =>
    match args with
    | [a, b, c] => .ok (.RSString (a.toStr.replace b.toStr c.toStr))
    | _ => .error "contains() expects exactly 3 argument"

/-- `recordsearch.go` lines 274-353: the `NATIVE_FUNCTIONS` map, keyed by
function name. -/
def NATIVE_FUNCTIONS {Path Doc : Type} (lib : XmlPathLib Path Doc) :
    String → Option RSNativeFunction :=
  fun name =>
    match name with
    | "xp" => some (xpFn lib)
    | "concat" => some concatFn
    | "startsWith" => some startsWithFn
    | "contains" => some containsFn
    | "urn" => some urnFn
    | "replace" => some replaceFn
    | _ => none

/-- A trivial instance of the xmlpath collaborator, used to instantiate
universally quantified theorems at a concrete input. -/
def trivialXmlPathLib : XmlPathLib Unit Unit where
  compile := fun _ => .ok ()
  parseDoc := fun _ => .ok ()
  pathString := fun _ _ => ("", true)

/-- A sample record used in witnesses and counterexamples. -/
def sampleRecord : RecordResult :=
  { identifier := "oai:sample:1", content := "<x/>" }

/-! ### Evaluator semantics -/

/-- The argument loop evaluates left-to-right and stops at the first error:
if every expression before `a` succeeds and `a` fails with `e`, the whole
argument list fails with `e`. -/
theorem evalArgsList_error_of_mem (pre post : List RSExprAst) (a : RSExprAst)
    (rr : RecordResult) (e : String)
    (hpre : ∀ b ∈ pre, ∃ v, b.Evaluate rr = .ok v)
    (ha : a.Evaluate rr = .error e) :
    evalArgsList (pre ++ a :: post) rr = .error e := by
  induction pre with
  | nil => simp [evalArgsList, ha]
  | cons b pre ih =>
    obtain ⟨v, hv⟩ := hpre b (List.mem_cons_self b pre)
    have htail := ih (fun c hc => hpre c (List.mem_cons_of_mem b hc))
    simp only [List.cons_append, evalArgsList, hv, List.append_eq, htail]

/-- C4: a Literal node evaluates to its held Value and never returns an
error; a Function Call node evaluates its argument sub-expressions
left-to-right — if any argument evaluation returns an error, that error is
returned and the native function is not invoked (the result is that error
for every function `fn` and every remaining argument list `post`); if all
arguments succeed, the function is applied to the record and the ordered
argument values and its result is the node's result. -/
theorem evaluate_literal_and_call_semantics :
    (∀ (v : RSExprValue) (rr : RecordResult), (RSExprAst.literal v).Evaluate rr = .ok v)
    ∧ (∀ (fn : RSNativeFunction) (args : List RSExprAst) (rr : RecordResult)
        (vals : List RSExprValue), evalArgsList args rr = .ok vals →
        (RSExprAst.fnCall fn args).Evaluate rr = fn rr vals)
    ∧ (∀ (fn : RSNativeFunction) (pre post : List RSExprAst) (a : RSExprAst)
        (rr : RecordResult) (e : String),
        (∀ b ∈ pre, ∃ v, b.Evaluate rr = .ok v) →
        a.Evaluate rr = .error e →
        (RSExprAst.fnCall fn (pre ++ a :: post)).Evaluate rr = .error e) := by
  refine ⟨fun v rr => rfl, fun fn args rr vals h => ?_, fun fn pre post a rr e hpre ha => ?_⟩
  · simp [RSExprAst.Evaluate, h]
  · simp [RSExprAst.Evaluate, evalArgsList_error_of_mem pre post a rr e hpre ha]

/-- Witness for C4 at concrete inputs: a literal, a successful call, and a
short-circuited call (the second argument fails, so the outer `urn` call is
never invoked and its error surfaces). -/
theorem evaluate_literal_and_call_semantics_witness :
    (RSExprAst.literal (.RSString "a")).Evaluate sampleRecord = .ok (.RSString "a")
    ∧ (RSExprAst.fnCall urnFn [RSExprAst.literal (.RSString "a")]).Evaluate sampleRecord
        = .ok (.RSString "oai:sample:1")
    ∧ (RSExprAst.fnCall urnFn
        [RSExprAst.literal (.RSString "a"),
         RSExprAst.fnCall startsWithFn []]).Evaluate sampleRecord
        = .error "startsWith() expects exactly 2 argument" := by
  have h := evaluate_literal_and_call_semantics
  refine ⟨h.1 (.RSString "a") sampleRecord, ?_, ?_⟩
  · exact h.2.1 urnFn [RSExprAst.literal (.RSString "a")] sampleRecord
      [.RSString "a"] rfl
  · exact h.2.2 urnFn [RSExprAst.literal (.RSString "a")] []
      (RSExprAst.fnCall startsWithFn []) sampleRecord
      "startsWith() expects exactly 2 argument"
      (by
        intro b hb
        rw [List.mem_singleton] at hb
        subst hb
        exact ⟨.RSString "a", rfl⟩)
      rfl

/-! ### Record searcher -/

/-- C9: if evaluating the AST on the record returns an error, `SearchRecord`
returns `match = false` and the empty string along with that error — the
searcher fails closed. -/
theorem searchRecord_fails_closed (ast : RSExprAst) (rr : RecordResult) (e : String)
    (h : ast.Evaluate rr = .error e) :
    ExprRecordSearcher.SearchRecord ⟨ast⟩ rr = (false, "", some e) := by
  simp [ExprRecordSearcher.SearchRecord, h]

/-- Witness for C9: a call to `startsWith` with no arguments fails at
evaluation time, and the searcher reports no match, an empty string, and
that error. -/
theorem searchRecord_fails_closed_witness :
    ExprRecordSearcher.SearchRecord ⟨RSExprAst.fnCall startsWithFn []⟩ sampleRecord
      = (false, "", some "startsWith() expects exactly 2 argument") :=
  searchRecord_fails_closed (RSExprAst.fnCall startsWithFn []) sampleRecord
    "startsWith() expects exactly 2 argument" rfl

/-! ### Native function arity behaviour -/

/-- C2 counterexample: `urn` called with a non-empty argument list returns
the record identifier with no error (there is no arity check), and `replace`
called with 2 arguments returns an arity error whose message names
`contains`, not `replace` — the message does not even mention `replace` as a
substring.  This falsifies the claim that every arity violation yields an
error naming the violated function. -/
theorem native_arity_claim_counterexample :
    urnFn sampleRecord [.RSString "x"] = .ok (.RSString "oai:sample:1")
    ∧ replaceFn sampleRecord [.RSString "a", .RSString "b"]
        = .error "contains() expects exactly 3 argument"
    ∧ ¬ ("replace".toList <:+: "contains() expects exactly 3 argument".toList) :=
  ⟨rfl, rfl, by decide⟩

/-- C2 (amended): `xp`, `startsWith` and `contains` reject argument lists of
the wrong length with errors naming themselves; `replace` rejects argument
counts other than 3 but its error message names `contains` (a copy-paste
slip in the source); `urn` performs no arity check and returns the record's
identifier for every argument list. -/
theorem native_arity_checks (Path Doc : Type) (lib : XmlPathLib Path Doc) :
    (∀ (rr : RecordResult) (args : List RSExprValue), args.length ≠ 1 →
      xpFn lib rr args = .error "xp() expects exactly 1 argument")
    ∧ (∀ (rr : RecordResult) (args : List RSExprValue), args.length ≠ 2 →
      startsWithFn rr args = .error "startsWith() expects exactly 2 argument")
    ∧ (∀ (rr : RecordResult) (args : List RSExprValue), args.length ≠ 2 →
      containsFn rr args = .error "contains() expects exactly 2 argument")
    ∧ (∀ (rr : RecordResult) (args : List RSExprValue), args.length ≠ 3 →
      replaceFn rr args = .error "contains() expects exactly 3 argument")
    ∧ (∀ (rr : RecordResult) (args : List RSExprValue),
      urnFn rr args = .ok (.RSString rr.Identifier)) := by
  refine ⟨fun rr args h => ?_, fun rr args h => ?_, fun rr args h => ?_,
    fun rr args h => ?_, fun rr args => rfl⟩
  · match args with
    | [] => rfl
    | [_] => exact absurd rfl h
    | _ :: _ :: _ => rfl
  · match args with
    | [] => rfl
    | [_] => rfl
    | [_, _] => exact absurd rfl h
    | _ :: _ :: _ :: _ => rfl
  · match args with
    | [] => rfl
    | [_] => rfl
    | [_, _] => exact absurd rfl h
    | _ :: _ :: _ :: _ => rfl
  · match args with
    | [] => rfl
    | [_] => rfl
    | [_, _] => rfl
    | [_, _, _] => exact absurd rfl h
    | _ :: _ :: _ :: _ :: _ => rfl

/-- Witness for C2 (amended) at concrete inputs: each arity check triggered
with an empty argument list, and `urn` applied to a one-element list. -/
theorem native_arity_checks_witness :
    xpFn trivialXmlPathLib sampleRecord [] = .error "xp() expects exactly 1 argument"
    ∧ startsWithFn sampleRecord [] = .error "startsWith() expects exactly 2 argument"
    ∧ containsFn sampleRecord [] = .error "contains() expects exactly 2 argument"
    ∧ replaceFn sampleRecord [] = .error "contains() expects exactly 3 argument"
    ∧ urnFn sampleRecord [.RSString "x"] = .ok (.RSString sampleRecord.Identifier) := by
  have h := native_arity_checks Unit Unit trivialXmlPathLib
  exact ⟨h.1 sampleRecord [] (by decide), h.2.1 sampleRecord [] (by decide),
    h.2.2.1 sampleRecord [] (by decide), h.2.2.2.1 sampleRecord [] (by decide),
    h.2.2.2.2 sampleRecord [.RSString "x"]⟩

/-! ### Harvest command: directory partitioning (part_000) -/

/-- A filesystem / process side effect of the harvest command.  `zipLaunch`
models the fire-and-forget `exec.Command("zip", "-m", "-r", base+".zip",
base)` launch of `closeDir` (its outcome is only logged, never joined). -/
inductive FsOp : Type where
  | mkDirAll (dir : String)
  | createFile (path : String) (content : String)
  | zipLaunch (dir : String)
deriving DecidableEq

/-- The configuration fields of `HarvestCommand` (part_000 lines 20-38) that
the partitioning logic reads.  Go stores them behind flag pointers; here they
are plain values.  Logging fields are omitted (log output is out of scope). -/
structure HarvestConfig where
  dryRun : Bool
  compressDirs : Bool
  maxDirSize : Nat
  filenameFilterAst : Option RSExprAst
  dirPrefix : String

/-- The mutable run state of `HarvestCommand`: `recordCount` (Go zero value
0 at run start) and `lastDirId`. -/
structure HarvestState where
  recordCount : Nat
  lastDirId : Nat
deriving DecidableEq

/-- Go's `fmt.Sprintf("%02d", n)` on a non-negative count: decimal digits,
zero-padded to a minimum width of two. -/
def pad2 (n : Nat) : String :=
  if n < 10 then "0" ++ toString n else toString n

/-- part_000 lines 61-63: `dirName` renders `"%s/%02d"` from the run's
directory prefix and the directory id. -/
def dirName (cfg : HarvestConfig) (dirId : Nat) : String :=
  cfg.dirPrefix ++ "/" ++ pad2 dirId

/-- part_000 lines 66-104: `saveRecordToDir`.  Returns the output file path
together with the filesystem operations performed (`os.MkdirAll`, then
`os.Create` + `WriteString`).  The filename-filter result is used when
evaluation succeeds and the value is truthy (in Go also `res != nil`, which
cannot occur here: every registered function returns a non-nil value exactly
when it returns a nil error); otherwise the record's identifier is used and
the failure is only logged.  `EscapeIdForFilename` is the external `escape`
parameter; `filepath.Join` is modelled as separator concatenation. -/
def saveRecordToDir (cfg : HarvestConfig) (escape : String → String)
    (dirId : Nat) (res : RecordResult) : String × List FsOp :=
  let dir := dirName cfg dirId
  let resId := res.Identifier
  let filename : String :=
    match cfg.filenameFilterAst with
    | none => resId
    | some ast =>
      match ast.Evaluate res with
      | .ok v => if v.toBool then v.toStr else resId
      | .error _ => resId
  let fileBaseName := escape filename
  let fileBaseName2 := if fileBaseName = "" then "__empty__" else fileBaseName
  let outFile := dir ++ "/" ++ fileBaseName2 ++ ".xml"
  (outFile, [FsOp.mkDirAll dir, FsOp.createFile outFile res.content])

/-- part_000 lines 107-129: `closeDir`.  A dry run does nothing; otherwise,
when compression is enabled, an asynchronous zip of the directory is
launched (a launch failure is only reported, which is out of the model). -/
def closeDir (cfg : HarvestConfig) (dirId : Nat) : List FsOp :=
  if cfg.dryRun then []
  else if cfg.compressDirs then [FsOp.zipLaunch (dirName cfg dirId)] else []

/-- part_000 lines 131-149: `saveRecord`.  Increments `recordCount`, computes
`dirId = recordCount / maxDirSize + 1` on the post-increment count, closes
the previous directory and moves `lastDirId` when the id changed, and (when
not a dry run) writes the record into directory `dirId`.  The log statements
of lines 139-144 are out of scope. -/
def saveRecord (cfg : HarvestConfig) (escape : String → String)
    (st : HarvestState) (res : RecordResult) : HarvestState × List FsOp :=
  let recordCount := st.recordCount + 1
  let dirId := recordCount / cfg.maxDirSize + 1
  let closeOps := if dirId ≠ st.lastDirId then closeDir cfg st.lastDirId else []
  let lastDirId := if dirId ≠ st.lastDirId then dirId else st.lastDirId
  let writeOps := if cfg.dryRun then [] else (saveRecordToDir cfg escape dirId res).2
  (⟨recordCount, lastDirId⟩, closeOps ++ writeOps)

/-- part_000 lines 229-244: `Run` sets `lastDirId = 1` before harvesting,
and `recordCount` holds Go's zero value 0. -/
def initHarvestState : HarvestState :=
  ⟨0, 1⟩

/-- The per-record trace of a run: for each admitted record in order, the
state after processing it and the filesystem operations its `saveRecord`
call performed. -/
def harvestSteps (cfg : HarvestConfig) (escape : String → String) :
    HarvestState → List RecordResult → List (HarvestState × List FsOp)
  | _, [] => []
  | st, r :: rs =>
    let p := saveRecord cfg escape st r
    p :: harvestSteps cfg escape p.1 rs

/-- The rotation trace of a run: for each admitted record in order, the
directory id the record is written to (the new `lastDirId`) and, when the
step rotated, the id of the directory it closed. -/
def rotTrace (cfg : HarvestConfig) (escape : String → String) :
    HarvestState → List RecordResult → List (Nat × Option Nat)
  | _, [] => []
  | st, r :: rs =>
    let st1 := (saveRecord cfg escape st r).1
    (st1.lastDirId, if st1.lastDirId ≠ st.lastDirId then some st.lastDirId else none)
      :: rotTrace cfg escape st1 rs

/-- A concrete configuration with `maxDirSize = 2` (no dry run, no
compression, no filename filter), used for concrete runs. -/
def cfg2 : HarvestConfig :=
  { dryRun := false, compressDirs := false, maxDirSize := 2,
    filenameFilterAst := none, dirPrefix := "run" }

/-- A concrete numbered record. -/
def mkRec (n : Nat) : RecordResult :=
  { identifier := "id" ++ toString n, content := "c" }

/-- Four admitted records. -/
def rs4 : List RecordResult :=
  [mkRec 1, mkRec 2, mkRec 3, mkRec 4]

/-! ### C3: the partitioning algorithm of saveRecord -/

/-- C3: on each admitted record `saveRecord` increments `recordCount`,
computes `targetDirId = (recordCount / maxDirSize) + 1` by integer division
on the post-increment count; when the target differs from `lastDirId` it
closes the directory at `lastDirId` (emitting `closeDir`'s operations first)
and `lastDirId` becomes the target; the record is then written into the
directory at the target id (the `createFile` operation lands in
`dirName cfg targetDirId`, unless this is a dry run). -/
theorem saveRecord_partitioner_spec (cfg : HarvestConfig) (escape : String → String)
    (st : HarvestState) (res : RecordResult) :
    ((saveRecord cfg escape st res).1.recordCount = st.recordCount + 1)
    ∧ ((saveRecord cfg escape st res).1.lastDirId
        = (st.recordCount + 1) / cfg.maxDirSize + 1)
    ∧ ((st.recordCount + 1) / cfg.maxDirSize + 1 ≠ st.lastDirId →
        (saveRecord cfg escape st res).2
          = closeDir cfg st.lastDirId
            ++ (if cfg.dryRun then []
                else (saveRecordToDir cfg escape
                  ((st.recordCount + 1) / cfg.maxDirSize + 1) res).2))
    ∧ ((st.recordCount + 1) / cfg.maxDirSize + 1 = st.lastDirId →
        (saveRecord cfg escape st res).2
          = (if cfg.dryRun then []
             else (saveRecordToDir cfg escape
               ((st.recordCount + 1) / cfg.maxDirSize + 1) res).2))
    ∧ (cfg.dryRun = false →
        FsOp.createFile
          (saveRecordToDir cfg escape ((st.recordCount + 1) / cfg.maxDirSize + 1) res).1
          res.content
          ∈ (saveRecord cfg escape st res).2) := by
  refine ⟨?_, ?_, ?_, ?_, ?_⟩
  · by_cases h : (st.recordCount + 1) / cfg.maxDirSize + 1 = st.lastDirId <;>
      simp [saveRecord, h]
  · by_cases h : (st.recordCount + 1) / cfg.maxDirSize + 1 = st.lastDirId <;>
      simp [saveRecord, h]
  · intro h
    simp [saveRecord, h]
  · intro h
    simp [saveRecord, h]
  · intro h
    by_cases hne : (st.recordCount + 1) / cfg.maxDirSize + 1 = st.lastDirId <;>
      simp [saveRecord, saveRecordToDir, h, hne]

/-- Witness for C3 at a concrete input: the third admitted record under
`maxDirSize = 2` (state `recordCount = 2`, `lastDirId = 2`): the target id
is `3 / 2 + 1 = 2`, no rotation happens, and the write lands in `run/02`. -/
theorem saveRecord_partitioner_spec_witness :
    ((saveRecord cfg2 id ⟨2, 2⟩ (mkRec 3)).1.recordCount = 2 + 1)
    ∧ ((saveRecord cfg2 id ⟨2, 2⟩ (mkRec 3)).2
        = (if cfg2.dryRun then []
           else (saveRecordToDir cfg2 id ((2 + 1) / cfg2.maxDirSize + 1) (mkRec 3)).2))
    ∧ (FsOp.createFile
        (saveRecordToDir cfg2 id ((2 + 1) / cfg2.maxDirSize + 1) (mkRec 3)).1
        (mkRec 3).content
        ∈ (saveRecord cfg2 id ⟨2, 2⟩ (mkRec 3)).2) := by
  have h := saveRecord_partitioner_spec cfg2 id ⟨2, 2⟩ (mkRec 3)
  exact ⟨h.1, h.2.2.2.1 (by decide), h.2.2.2.2 rfl⟩

/-! ### C1: rotation boundaries with maxDirSize = 2 -/

/-- C1 counterexample: with `maxDirSize = 2` and four admitted records from a
fresh run, the directory ids actually targeted are `[1, 2, 2, 3]` — the 2nd
record is written into directory 2 (`run/02`), not directory 1, and the 4th
into directory 3.  The claimed layout `[1, 1, 2, 2]` therefore does not hold
of the stated integer-division formula. -/
theorem dir_rotation_claim_counterexample :
    ((harvestSteps cfg2 id initHarvestState rs4).map (fun p => p.1.lastDirId)
      = [1, 2, 2, 3])
    ∧ ((harvestSteps cfg2 id initHarvestState rs4).map (fun p => p.2)
        = [[FsOp.mkDirAll "run/01", FsOp.createFile "run/01/id1.xml" "c"],
           [FsOp.mkDirAll "run/02", FsOp.createFile "run/02/id2.xml" "c"],
           [FsOp.mkDirAll "run/02", FsOp.createFile "run/02/id3.xml" "c"],
           [FsOp.mkDirAll "run/03", FsOp.createFile "run/03/id4.xml" "c"]])
    ∧ [1, 2, 2, 3] ≠ [1, 1, 2, 2] :=
  ⟨rfl, rfl, by decide⟩

/-- C1 (amended): with `maxDirSize = 2`, the post-increment integer-division
formula sends the 1st admitted record to directory id 1, the 2nd and 3rd to
directory id 2, and the 4th to directory id 3 (a record count exactly
divisible by `maxDirSize` already maps to the next directory id). -/
theorem dir_rotation_maxDirSize_two :
    ((harvestSteps cfg2 id initHarvestState rs4).map (fun p => p.1.lastDirId)
      = [1, 2, 2, 3])
    ∧ ((rotTrace cfg2 id initHarvestState rs4).map Prod.fst = [1, 2, 2, 3]) :=
  ⟨rfl, rfl⟩

/-! ### C7: dry-run mode -/

/-- C7: in dry-run mode, processing an admitted record performs no file or
directory operation at all, and `closeDir` launches no compression, while
`recordCount` still advances by one exactly as in a normal run. -/
theorem dry_run_suppresses_side_effects (cfg : HarvestConfig)
    (escape : String → String) (st : HarvestState) (res : RecordResult)
    (d : Nat) (h : cfg.dryRun = true) :
    (saveRecord cfg escape st res).2 = []
    ∧ (saveRecord cfg escape st res).1.recordCount = st.recordCount + 1
    ∧ closeDir cfg d = [] := by
  refine ⟨?_, ?_, by simp [closeDir, h]⟩
  · by_cases hne : (st.recordCount + 1) / cfg.maxDirSize + 1 = st.lastDirId <;>
      simp [saveRecord, closeDir, h, hne]
  · by_cases hne : (st.recordCount + 1) / cfg.maxDirSize + 1 = st.lastDirId <;>
      simp [saveRecord, h, hne]

/-- The dry-run variant of the concrete configuration. -/
def cfg2dry : HarvestConfig :=
  { cfg2 with dryRun := true }

/-- Witness for C7 at a concrete input. -/
theorem dry_run_suppresses_side_effects_witness :
    (saveRecord cfg2dry id initHarvestState (mkRec 1)).2 = []
    ∧ (saveRecord cfg2dry id initHarvestState (mkRec 1)).1.recordCount
        = initHarvestState.recordCount + 1
    ∧ closeDir cfg2dry 1 = [] :=
  dry_run_suppresses_side_effects cfg2dry id initHarvestState (mkRec 1) 1 rfl

/-! ### C5: filename derivation -/

/-- The file location and operations the spec prescribes for saving record
`res` into directory `dirId` under base filename `base`: the base is
escaped, an empty escaped name is replaced by the sentinel `__empty__`, and
the file written is `<escaped-base>.xml` in the directory.  This definition
follows the spec's words; C5's theorem equates the source function's result
with it for the spec's choice of base name in each case. -/
def specSavedFile (cfg : HarvestConfig) (escape : String → String)
    (dirId : Nat) (res : RecordResult) (base : String) : String × List FsOp :=
  let eb := escape base
  let fb := if eb = "" then "__empty__" else eb
  let outFile := dirName cfg dirId ++ "/" ++ fb ++ ".xml"
  (outFile, [FsOp.mkDirAll (dirName cfg dirId), FsOp.createFile outFile res.content])

/-- C5: when a filename filter is configured and evaluates on the record to
a truthy value, its string form is the base filename; on an evaluation
error, or a falsy result, or no configured filter, the record's identifier
is the base filename (the save still happens normally — the harvest is not
aborted).  The chosen base is escaped, an empty escaped name becomes the
sentinel `__empty__`, and the written file is `<escaped-base>.xml` inside
the directory. -/
theorem filename_derivation_spec (cfg : HarvestConfig) (escape : String → String)
    (dirId : Nat) (res : RecordResult) :
    (cfg.filenameFilterAst = none →
      saveRecordToDir cfg escape dirId res
        = specSavedFile cfg escape dirId res res.Identifier)
    ∧ (∀ (ast : RSExprAst) (v : RSExprValue), cfg.filenameFilterAst = some ast →
        ast.Evaluate res = .ok v → v.toBool = true →
        saveRecordToDir cfg escape dirId res
          = specSavedFile cfg escape dirId res v.toStr)
    ∧ (∀ (ast : RSExprAst) (v : RSExprValue), cfg.filenameFilterAst = some ast →
        ast.Evaluate res = .ok v → v.toBool = false →
        saveRecordToDir cfg escape dirId res
          = specSavedFile cfg escape dirId res res.Identifier)
    ∧ (∀ (ast : RSExprAst) (e : String), cfg.filenameFilterAst = some ast →
        ast.Evaluate res = .error e →
        saveRecordToDir cfg escape dirId res
          = specSavedFile cfg escape dirId res res.Identifier) := by
  refine ⟨fun h => ?_, fun ast v hc he hb => ?_, fun ast v hc he hb => ?_,
    fun ast e hc he => ?_⟩ <;>
    simp [saveRecordToDir, specSavedFile, *]

/-- Configurations with a truthy, falsy and failing filename filter. -/
def cfgFilterTrue : HarvestConfig :=
  { cfg2 with filenameFilterAst := some (.literal (.RSString "hello")) }

def cfgFilterFalse : HarvestConfig :=
  { cfg2 with filenameFilterAst := some (.literal (.RSString "")) }

def cfgFilterErr : HarvestConfig :=
  { cfg2 with filenameFilterAst := some (.fnCall startsWithFn []) }

/-- Witness for C5 at concrete inputs: all four cases, plus the `__empty__`
sentinel (an escaping collaborator that erases every name). -/
theorem filename_derivation_spec_witness :
    (saveRecordToDir cfg2 id 1 (mkRec 1)
      = specSavedFile cfg2 id 1 (mkRec 1) (mkRec 1).Identifier)
    ∧ (saveRecordToDir cfgFilterTrue id 1 (mkRec 1)
        = specSavedFile cfgFilterTrue id 1 (mkRec 1) "hello")
    ∧ (saveRecordToDir cfgFilterFalse id 1 (mkRec 1)
        = specSavedFile cfgFilterFalse id 1 (mkRec 1) (mkRec 1).Identifier)
    ∧ (saveRecordToDir cfgFilterErr id 1 (mkRec 1)
        = specSavedFile cfgFilterErr id 1 (mkRec 1) (mkRec 1).Identifier)
    ∧ ((saveRecordToDir cfg2 (fun _ => "") 1 (mkRec 1)).1 = "run/01/__empty__.xml") := by
  refine ⟨(filename_derivation_spec cfg2 id 1 (mkRec 1)).1 rfl,
    (filename_derivation_spec cfgFilterTrue id 1 (mkRec 1)).2.1
      (.literal (.RSString "hello")) (.RSString "hello") rfl rfl rfl,
    (filename_derivation_spec cfgFilterFalse id 1 (mkRec 1)).2.2.1
      (.literal (.RSString "")) (.RSString "") rfl rfl rfl,
    (filename_derivation_spec cfgFilterErr id 1 (mkRec 1)).2.2.2
      (.fnCall startsWithFn []) "startsWith() expects exactly 2 argument" rfl rfl,
    ?_⟩
  have h := (filename_derivation_spec cfg2 (fun _ => "") 1 (mkRec 1)).1 rfl
  rw [h]
  rfl

/-! ### C8: directory id invariants over a run -/

/-- The state component of a `saveRecord` step in closed form: the count
advances by one and `lastDirId` ends up at the target id whether or not a
rotation happened. -/
theorem saveRecord_state_eq (cfg : HarvestConfig) (escape : String → String)
    (st : HarvestState) (res : RecordResult) :
    (saveRecord cfg escape st res).1
      = ⟨st.recordCount + 1, (st.recordCount + 1) / cfg.maxDirSize + 1⟩ := by
  by_cases h : (st.recordCount + 1) / cfg.maxDirSize + 1 = st.lastDirId <;>
    simp [saveRecord, h]

/-- Closed form of the rotation trace from any state satisfying the
invariant `lastDirId = recordCount / maxDirSize + 1`. -/
theorem rotTrace_closed_form (cfg : HarvestConfig) (escape : String → String)
    (rs : List RecordResult) :
    ∀ k : Nat,
      rotTrace cfg escape ⟨k, k / cfg.maxDirSize + 1⟩ rs
        = (List.range rs.length).map (fun i =>
            ((k + i + 1) / cfg.maxDirSize + 1,
             if (k + i + 1) / cfg.maxDirSize + 1 ≠ (k + i) / cfg.maxDirSize + 1
               then some ((k + i) / cfg.maxDirSize + 1) else none)) := by
  induction rs with
  | nil => intro k; simp [rotTrace]
  | cons r rs ih =>
    intro k
    rw [rotTrace, saveRecord_state_eq]
    simp only [List.length_cons, List.range_succ_eq_map, List.map_cons, List.map_map]
    refine congrArg₂ _ ?_ ?_
    · simp
    · rw [ih (k + 1)]
      refine List.map_congr_left ?_
      intro i _
      have h1 : k + 1 + i = k + (i + 1) := by omega
      simp only [Function.comp_apply, h1]

/-- Closed form of the per-step states from any state satisfying the same
invariant. -/
theorem harvestSteps_states_closed_form (cfg : HarvestConfig)
    (escape : String → String) (rs : List RecordResult) :
    ∀ k : Nat,
      (harvestSteps cfg escape ⟨k, k / cfg.maxDirSize + 1⟩ rs).map (fun p => p.1)
        = (List.range rs.length).map (fun i =>
            (⟨k + i + 1, (k + i + 1) / cfg.maxDirSize + 1⟩ : HarvestState)) := by
  induction rs with
  | nil => intro k; simp [harvestSteps]
  | cons r rs ih =>
    intro k
    rw [harvestSteps]
    simp only [List.map_cons, saveRecord_state_eq, List.length_cons,
      List.range_succ_eq_map, List.map_map]
    refine congrArg₂ _ ?_ ?_
    · simp
    · rw [ih (k + 1)]
      refine List.map_congr_left ?_
      intro i _
      have h1 : k + 1 + i = k + (i + 1) := by omega
      simp only [Function.comp_apply, h1]

/-- C8: per run, `lastDirId` starts at 1; the per-step current write target
(the post-step `lastDirId`) is exactly the rotation trace's target id; the
sequence of target ids is non-decreasing; a rotation step closes a directory
id that is strictly smaller than its new target; and a closed directory id
stays strictly below every later target, so it is never written to again. -/
theorem directory_id_invariants (cfg : HarvestConfig) (escape : String → String)
    (rs : List RecordResult) (hm : 0 < cfg.maxDirSize) :
    initHarvestState.lastDirId = 1
    ∧ ((harvestSteps cfg escape initHarvestState rs).map (fun p => p.1.lastDirId)
        = (rotTrace cfg escape initHarvestState rs).map Prod.fst)
    ∧ (∀ i j (hi : i < (rotTrace cfg escape initHarvestState rs).length)
         (hj : j < (rotTrace cfg escape initHarvestState rs).length), i ≤ j →
         ((rotTrace cfg escape initHarvestState rs).get ⟨i, hi⟩).1
           ≤ ((rotTrace cfg escape initHarvestState rs).get ⟨j, hj⟩).1)
    ∧ (∀ i (hi : i < (rotTrace cfg escape initHarvestState rs).length) (c : Nat),
         ((rotTrace cfg escape initHarvestState rs).get ⟨i, hi⟩).2 = some c →
         c < ((rotTrace cfg escape initHarvestState rs).get ⟨i, hi⟩).1)
    ∧ (∀ i j (hi : i < (rotTrace cfg escape initHarvestState rs).length)
         (hj : j < (rotTrace cfg escape initHarvestState rs).length), i ≤ j →
         ∀ c : Nat, ((rotTrace cfg escape initHarvestState rs).get ⟨i, hi⟩).2 = some c →
         c < ((rotTrace cfg escape initHarvestState rs).get ⟨j, hj⟩).1) := by
  have hinit : initHarvestState = ⟨0, 0 / cfg.maxDirSize + 1⟩ := by
    simp [initHarvestState]
  have htr := rotTrace_closed_form cfg escape rs 0
  have hlen : (rotTrace cfg escape initHarvestState rs).length = rs.length := by
    rw [hinit, htr]; simp
  have hget : ∀ i (hi : i < (rotTrace cfg escape initHarvestState rs).length),
      (rotTrace cfg escape initHarvestState rs).get ⟨i, hi⟩
        = ((i + 1) / cfg.maxDirSize + 1,
           if (i + 1) / cfg.maxDirSize + 1 ≠ i / cfg.maxDirSize + 1
             then some (i / cfg.maxDirSize + 1) else none) := by
    intro i hi
    have hi' : i < rs.length := hlen ▸ hi
    rw [List.get_of_eq (hinit ▸ htr)]
    simp [List.get_eq_getElem, hi']
  refine ⟨rfl, ?_, ?_, ?_, ?_⟩
  · have hsteps := harvestSteps_states_closed_form cfg escape rs 0
    rw [hinit, htr]
    have hmap : (harvestSteps cfg escape
          (⟨0, 0 / cfg.maxDirSize + 1⟩ : HarvestState) rs).map (fun p => p.1.lastDirId)
        = ((harvestSteps cfg escape
            (⟨0, 0 / cfg.maxDirSize + 1⟩ : HarvestState) rs).map (fun p => p.1)).map
              (fun s => s.lastDirId) := by
      rw [List.map_map]
      rfl
    rw [hmap, hsteps]
    simp [List.map_map, Function.comp]
  · intro i j hi hj hij
    rw [hget i hi, hget j hj]
    exact Nat.add_le_add_right
      (Nat.div_le_div_right (Nat.add_le_add_right hij 1)) 1
  · intro i hi c hc
    rw [hget i hi] at hc ⊢
    by_cases hne : (i + 1) / cfg.maxDirSize + 1 ≠ i / cfg.maxDirSize + 1
    · rw [if_pos hne] at hc
      have hc' : c = i / cfg.maxDirSize + 1 := by
        exact (Option.some.injEq _ _ ▸ hc).symm ▸ rfl
      subst hc'
      exact lt_of_le_of_ne
        (Nat.add_le_add_right (Nat.div_le_div_right (Nat.le_succ i)) 1) (Ne.symm hne)
    · rw [if_neg hne] at hc
      exact absurd hc (by simp)
  · intro i j hi hj hij c hc
    have hci : c < ((rotTrace cfg escape initHarvestState rs).get ⟨i, hi⟩).1 := by
      rw [hget i hi] at hc ⊢
      by_cases hne : (i + 1) / cfg.maxDirSize + 1 ≠ i / cfg.maxDirSize + 1
      · rw [if_pos hne] at hc
        have hc' : c = i / cfg.maxDirSize + 1 := by
          exact (Option.some.injEq _ _ ▸ hc).symm ▸ rfl
        subst hc'
        exact lt_of_le_of_ne
          (Nat.add_le_add_right (Nat.div_le_div_right (Nat.le_succ i)) 1) (Ne.symm hne)
      · rw [if_neg hne] at hc
        exact absurd hc (by simp)
    calc c < ((rotTrace cfg escape initHarvestState rs).get ⟨i, hi⟩).1 := hci
      _ ≤ ((rotTrace cfg escape initHarvestState rs).get ⟨j, hj⟩).1 := by
        rw [hget i hi, hget j hj]
        exact Nat.add_le_add_right
          (Nat.div_le_div_right (Nat.add_le_add_right hij 1)) 1

/-- Witness for C8 at a concrete run: `maxDirSize = 2`, four records.  The
target of step 1 is at most the target of step 4, and the directory closed
at step 2 (directory 1) is strictly below the target of step 4. -/
theorem directory_id_invariants_witness :
    ((rotTrace cfg2 id initHarvestState rs4).get ⟨0, by decide⟩).1
      ≤ ((rotTrace cfg2 id initHarvestState rs4).get ⟨3, by decide⟩).1
    ∧ 1 < ((rotTrace cfg2 id initHarvestState rs4).get ⟨3, by decide⟩).1 := by
  have h := directory_id_invariants cfg2 id rs4 (by decide)
  exact ⟨h.2.2.1 0 3 (by decide) (by decide) (by decide),
    h.2.2.2.2 1 3 (by decide) (by decide) (by decide) 1 (by rfl)⟩

/-! ### The expression parser (recordsearch.go lines 128-269)

The Go parser drives `text/scanner` (standard library, out of scope): the
scanner's token stream is the embedding's input, a list of tokens, and the
scanner's rune classes (`scanner.Ident`, `scanner.String`,
`scanner.RawString`, `scanner.EOF`, or the character itself) become
`TokKind`.  `strconv.Unquote` is the external `unquote` parameter.  The Go
recursion carries no fuel; the embedding threads a fuel counter, decremented
at each nested parse call, and `ParseRSExpr` supplies `2 * length + 4`,
ample for every call chain (each fuelled call is matched by at most two
input tokens, plus a constant-depth tail). -/

/-- The rune classes `consume` and `nextTokenIs` compare against. -/
inductive TokKind : Type where
  | ident
  | str
  | rawStr
  | eof
  | chr (c : Char)
deriving DecidableEq

/-- A scanner token together with its `TokenText()`. -/
inductive Token : Type where
  | ident (text : String)
  | str (raw : String)
  | rawStr (raw : String)
  | chr (c : Char)
  | eof
deriving DecidableEq

/-- The rune class of a token. -/
def Token.kind : Token → TokKind
  | .ident _ => .ident
  | .str _ => .str
  | .rawStr _ => .rawStr
  | .chr c => .chr c
  | .eof => .eof

/-- `scanner.TokenText()`: the text of the current token. -/
def Token.text : Token → String
  | .ident s => s
  | .str raw => raw
  | .rawStr raw => raw
  | .chr c => String.singleton c
  | .eof => ""

/-- The parser's error values: the `etoken` struct of lines 128-135, the
`No such function` error of line 197, the `Expected string but got` error of
line 241, a propagated `strconv.Unquote` failure (line 233), and the fuel
artifact of the embedding. -/
inductive ParseError : Type where
  | etoken (expected actual : TokKind)
  | unknownFunction (name : String)
  | expectedString (actual : TokKind)
  | unquoteError (msg : String)
  | outOfFuel
deriving DecidableEq

/-- The parser state of lines 138-142: the one-token lookahead `tok` (with
its text) and the not-yet-scanned remainder of the stream. -/
structure PState where
  tok : Token
  rest : List Token
deriving DecidableEq

/-- The state after `Init` + the first `nextToken` (line 261): lookahead on
the first token, `eof` when the stream is empty. -/
def stateOf : List Token → PState
  | [] => ⟨.eof, []⟩
  | t :: ts => ⟨t, ts⟩

/-- Lines 145-150: `nextToken` advances unless the lookahead is already EOF
(the scanner keeps returning EOF at the end of input). -/
def nextToken (s : PState) : PState :=
  if s.tok = Token.eof then s
  else
    match s.rest with
    | [] => ⟨.eof, []⟩
    | t :: ts => ⟨t, ts⟩

/-- Lines 153-155: `nextTokenIs`. -/
def nextTokenIs (k : TokKind) (s : PState) : Bool :=
  s.tok.kind = k

/-- Lines 159-167: `consume` returns the token text and advances when the
lookahead has the expected class, and an `etoken` error otherwise. -/
def consume (k : TokKind) (s : PState) : Except ParseError (String × PState) :=
  if s.tok.kind = k then .ok (s.tok.text, nextToken s)
  else .error (.etoken k s.tok.kind)

/-- Lines 231-243: `readString` unquotes a String or RawString lookahead
(consuming it via `consume(rsp.tok)`, which always succeeds on the current
token), and fails with `Expected string but got ...` otherwise.  A failed
`strconv.Unquote` is returned without consuming. -/
def readString (unquote : String → Except String String) (s : PState) :
    Except ParseError (String × PState) :=
  match s.tok with
  | .str raw =>
    match unquote raw with
    | .error e => .error (.unquoteError e)
    | .ok v => .ok (v, nextToken s)
  | .rawStr raw =>
    match unquote raw with
    | .error e => .error (.unquoteError e)
    | .ok v => .ok (v, nextToken s)
  | _ => .error (.expectedString s.tok.kind)

/-- Lines 181-184: `parseAtom` reads a string literal into a Literal node. -/
def parseAtom (unquote : String → Except String String) (s : PState) :
    Except ParseError (RSExprAst × PState) :=
  match readString unquote s with
  | .error e => .error e
  | .ok (str, s1) => .ok (.literal (.RSString str), s1)

mutual

/-- Lines 171-177: `parseExpr` — a function call when the lookahead is an
identifier, an atom otherwise. -/
def parseExpr {Path Doc : Type} (lib : XmlPathLib Path Doc)
    (unquote : String → Except String String) :
    Nat → PState → Except ParseError (RSExprAst × PState)
  | 0, _ => .error .outOfFuel
  | Nat.succ f, s =>
    if s.tok.kind = TokKind.ident then parseFn lib unquote f s
    else parseAtom unquote s

/-- Lines 188-228: `parseFn` — consume the identifier, resolve it against
`NATIVE_FUNCTIONS` (an unresolved name is a hard `No such function` error),
then either parse a parenthesised argument list (one token of lookahead:
`nextTokenIs('(')`; the guarded `consume('(')` whose result Go discards is
exactly `nextToken` here), or build a zero-argument call when no parenthesis
follows. -/
def parseFn {Path Doc : Type} (lib : XmlPathLib Path Doc)
    (unquote : String → Except String String) :
    Nat → PState → Except ParseError (RSExprAst × PState)
  | 0, _ => .error .outOfFuel
  | Nat.succ f, s =>
    match consume TokKind.ident s with
    | .error e => .error e
    | .ok (fnName, s1) =>
      match NATIVE_FUNCTIONS lib fnName with
      | none => .error (.unknownFunction fnName)
      | some fn =>
        if s1.tok.kind = TokKind.chr '(' then
          let s2 := nextToken s1
          match parseFnArgsLoop lib unquote f [] s2 with
          | .error e => .error e
          | .ok (args, s3) =>
            match consume (TokKind.chr ')') s3 with
            | .error e => .error e
            | .ok (_, s4) => .ok (.fnCall fn args, s4)
        else .ok (.fnCall fn [], s1)

/-- Lines 204-217: the argument loop of `parseFn` — while the lookahead is
not `)`, consume a separating comma (except before the first argument) and
parse the next argument expression. -/
def parseFnArgsLoop {Path Doc : Type} (lib : XmlPathLib Path Doc)
    (unquote : String → Except String String) :
    Nat → List RSExprAst → PState → Except ParseError (List RSExprAst × PState)
  | 0, _, _ => .error .outOfFuel
  | Nat.succ f, args, s =>
    if s.tok.kind = TokKind.chr ')' then .ok (args, s)
    else
      match (if 0 < args.length then
               match consume (TokKind.chr ',') s with
               | .error e => .error e
               | .ok (_, s') => .ok s'
             else .ok s : Except ParseError PState) with
      | .error e => .error e
      | .ok s1 =>
        match parseExpr lib unquote f s1 with
        | .error e => .error e
        | .ok (arg, s2) => parseFnArgsLoop lib unquote f (args ++ [arg]) s2

end

/-- Lines 256-269: `ParseRSExpr` — initialise the scanner, load the first
token, parse one expression and return its AST, discarding the final parser
state (remaining input is never examined). -/
def ParseRSExpr {Path Doc : Type} (lib : XmlPathLib Path Doc)
    (unquote : String → Except String String) (ts : List Token) :
    Except ParseError RSExprAst :=
  match parseExpr lib unquote (2 * ts.length + 4) (stateOf ts) with
  | .error e => .error e
  | .ok (ast, _) => .ok ast

/-- A trivial stand-in for `strconv.Unquote`, used to instantiate theorems
at concrete inputs (the inputs used contain no string token, so it is never
consulted). -/
def unquoteOk : String → Except String String :=
  fun s => .ok s

/-- `consume` only ever fails with an `etoken` error recording the expected
and actual token classes. -/
theorem consume_error_eq {k : TokKind} {s : PState} {e : ParseError}
    (h : consume k s = .error e) : e = ParseError.etoken k s.tok.kind := by
  unfold consume at h
  by_cases hk : s.tok.kind = k
  · rw [if_pos hk] at h; nomatch h
  · rw [if_neg hk] at h
    exact (Except.error.injEq _ _ ▸ h).symm

/-- `readString` only ever fails with an unquote error or an
expected-string error. -/
theorem readString_error_shape {u : String → Except String String} {s : PState}
    {e : ParseError} (h : readString u s = .error e) :
    (∃ m, e = ParseError.unquoteError m) ∨ (∃ k, e = ParseError.expectedString k) := by
  unfold readString at h
  cases htok : s.tok <;> rw [htok] at h
  case str raw =>
    cases hu : u raw <;> simp only [hu] at h
    · exact Or.inl ⟨_, ((Except.error.injEq _ _).mp h).symm⟩
    · nomatch h
  case rawStr raw =>
    cases hu : u raw <;> simp only [hu] at h
    · exact Or.inl ⟨_, ((Except.error.injEq _ _).mp h).symm⟩
    · nomatch h
  all_goals exact Or.inr ⟨_, ((Except.error.injEq _ _).mp h).symm⟩

/-- `parseAtom` only ever fails with an unquote error or an expected-string
error. -/
theorem parseAtom_error_shape {u : String → Except String String} {s : PState}
    {e : ParseError} (h : parseAtom u s = .error e) :
    (∃ m, e = ParseError.unquoteError m) ∨ (∃ k, e = ParseError.expectedString k) := by
  unfold parseAtom at h
  cases hr : readString u s with
  | error e2 =>
    simp only [hr] at h
    exact (Except.error.injEq _ _ ▸ h) ▸ readString_error_shape hr
  | ok p =>
    simp only [hr] at h
    nomatch h

/-- An `unknownFunction` parse error always exhibits a name that the native
function registry does not resolve: it is only constructed at a failed
registry lookup. -/
theorem parser_unknown_imp {Path Doc : Type} (lib : XmlPathLib Path Doc)
    (u : String → Except String String) :
    ∀ f : Nat,
      (∀ s n, parseExpr lib u f s = .error (.unknownFunction n) →
        NATIVE_FUNCTIONS lib n = none)
      ∧ (∀ s n, parseFn lib u f s = .error (.unknownFunction n) →
        NATIVE_FUNCTIONS lib n = none)
      ∧ (∀ args s n, parseFnArgsLoop lib u f args s = .error (.unknownFunction n) →
        NATIVE_FUNCTIONS lib n = none) := by
  intro f
  induction f with
  | zero =>
    refine ⟨fun s n h => ?_, fun s n h => ?_, fun args s n h => ?_⟩ <;>
      simp [parseExpr, parseFn, parseFnArgsLoop] at h
  | succ f ih =>
    obtain ⟨ihE, ihF, ihA⟩ := ih
    refine ⟨fun s n h => ?_, fun s n h => ?_, fun args s n h => ?_⟩
    · simp only [parseExpr] at h
      by_cases hk : s.tok.kind = TokKind.ident
      · rw [if_pos hk] at h
        exact ihF s n h
      · rw [if_neg hk] at h
        rcases parseAtom_error_shape h with ⟨m, hm⟩ | ⟨k2, hk2⟩
        · nomatch hm
        · nomatch hk2
    · simp only [parseFn] at h
      cases hc : consume TokKind.ident s with
      | error e =>
        simp only [hc] at h
        have he := consume_error_eq hc
        have h2 : e = ParseError.unknownFunction n := by
          exact (Except.error.injEq _ _).mp h
        rw [h2] at he
        nomatch he
      | ok p =>
        obtain ⟨nm, s1⟩ := p
        simp only [hc] at h
        cases hl : NATIVE_FUNCTIONS lib nm with
        | none =>
          simp only [hl] at h
          have h2 : nm = n := by
            have := (Except.error.injEq _ _).mp h
            exact (ParseError.unknownFunction.injEq _ _).mp this
          exact h2 ▸ hl
        | some fn =>
          simp only [hl] at h
          by_cases hp : s1.tok.kind = TokKind.chr '('
          · rw [if_pos hp] at h
            cases hA : parseFnArgsLoop lib u f [] (nextToken s1) with
            | error e =>
              simp only [hA] at h
              have h2 : e = ParseError.unknownFunction n := by
                exact (Except.error.injEq _ _).mp h
              exact ihA [] (nextToken s1) n (h2 ▸ hA)
            | ok q =>
              obtain ⟨args2, s3⟩ := q
              simp only [hA] at h
              cases hc2 : consume (TokKind.chr ')') s3 with
              | error e2 =>
                simp only [hc2] at h
                have he2 := consume_error_eq hc2
                have h2 : e2 = ParseError.unknownFunction n := by
                  exact (Except.error.injEq _ _).mp h
                rw [h2] at he2
                nomatch he2
              | ok r2 =>
                obtain ⟨txt, s4⟩ := r2
                simp only [hc2] at h
                nomatch h
          · rw [if_neg hp] at h
            nomatch h
    · simp only [parseFnArgsLoop] at h
      by_cases hk : s.tok.kind = TokKind.chr ')'
      · rw [if_pos hk] at h
        nomatch h
      · rw [if_neg hk] at h
        by_cases hl : 0 < args.length
        · rw [if_pos hl] at h
          cases hcc : consume (TokKind.chr ',') s with
          | error e =>
            simp only [hcc] at h
            have he := consume_error_eq hcc
            have h2 : e = ParseError.unknownFunction n := by
              exact (Except.error.injEq _ _).mp h
            rw [h2] at he
            nomatch he
          | ok p =>
            obtain ⟨txt, sB⟩ := p
            simp only [hcc] at h
            cases hE : parseExpr lib u f sB with
            | error e =>
              simp only [hE] at h
              have h2 : e = ParseError.unknownFunction n := by
                exact (Except.error.injEq _ _).mp h
              exact ihE sB n (h2 ▸ hE)
            | ok q =>
              obtain ⟨arg, sC⟩ := q
              simp only [hE] at h
              exact ihA (args ++ [arg]) sC n h
        · rw [if_neg hl] at h
          cases hE : parseExpr lib u f s with
          | error e =>
            simp only [hE] at h
            have h2 : e = ParseError.unknownFunction n := by
              exact (Except.error.injEq _ _).mp h
            exact ihE s n (h2 ▸ hE)
          | ok q =>
            obtain ⟨arg, sC⟩ := q
            simp only [hE] at h
            exact ihA (args ++ [arg]) sC n h

/-- C6: parsing fails with an unknown-function error exactly when a parsed
identifier does not resolve in the native function registry (forward: an
unresolved identifier in head position yields `No such function` whatever
follows; converse: every unknown-function error names an unresolved
identifier), and a bare identifier with no following parenthesis parses to a
function-call node with an empty argument list, equal to the AST of the same
call written with zero arguments in parentheses. -/
theorem parse_unknown_function_and_nullary_call {Path Doc : Type}
    (lib : XmlPathLib Path Doc) (u : String → Except String String) :
    (∀ (n : String) (ts : List Token), NATIVE_FUNCTIONS lib n = none →
      ParseRSExpr lib u (Token.ident n :: ts) = .error (.unknownFunction n))
    ∧ (∀ (ts : List Token) (n : String),
        ParseRSExpr lib u ts = .error (.unknownFunction n) →
        NATIVE_FUNCTIONS lib n = none)
    ∧ (∀ (n : String) (fn : RSNativeFunction), NATIVE_FUNCTIONS lib n = some fn →
        ParseRSExpr lib u [Token.ident n] = .ok (.fnCall fn [])
        ∧ ParseRSExpr lib u [Token.ident n, Token.chr '(', Token.chr ')']
            = .ok (.fnCall fn [])) := by
  refine ⟨fun n ts h => ?_, fun ts n h => ?_, fun n fn h => ⟨?_, ?_⟩⟩
  · simp [ParseRSExpr, stateOf, parseExpr, parseFn, consume, Token.kind,
      Token.text, nextToken, h]
  · unfold ParseRSExpr at h
    cases hp : parseExpr lib u (2 * ts.length + 4) (stateOf ts) with
    | error e =>
      simp only [hp] at h
      have h2 : e = ParseError.unknownFunction n := (Except.error.injEq _ _).mp h
      exact (parser_unknown_imp lib u (2 * ts.length + 4)).1 (stateOf ts) n (h2 ▸ hp)
    | ok p =>
      simp only [hp] at h
      nomatch h
  · simp [ParseRSExpr, stateOf, parseExpr, parseFn, consume, Token.kind,
      Token.text, nextToken, h]
  · simp [ParseRSExpr, stateOf, parseExpr, parseFn, parseFnArgsLoop, consume,
      Token.kind, Token.text, nextToken, h]

/-- Witness for C6 at concrete inputs: `foo` is unresolved and both
directions of the unknown-function characterisation hold of it; `urn` is
resolved and its bare form parses equal to its `()` form. -/
theorem parse_unknown_function_and_nullary_call_witness :
    (ParseRSExpr trivialXmlPathLib unquoteOk [Token.ident "foo"]
      = .error (.unknownFunction "foo"))
    ∧ NATIVE_FUNCTIONS trivialXmlPathLib "foo" = none
    ∧ (ParseRSExpr trivialXmlPathLib unquoteOk [Token.ident "urn"]
        = .ok (.fnCall urnFn []))
    ∧ (ParseRSExpr trivialXmlPathLib unquoteOk
        [Token.ident "urn", Token.chr '(', Token.chr ')']
        = .ok (.fnCall urnFn [])) := by
  have h := parse_unknown_function_and_nullary_call trivialXmlPathLib unquoteOk
  refine ⟨h.1 "foo" [] rfl, h.2.1 [Token.ident "foo"] "foo" ?_, (h.2.2 "urn" urnFn rfl).1,
    (h.2.2 "urn" urnFn rfl).2⟩
  exact h.1 "foo" [] rfl

/-! ### C10: trailing input after a complete expression -/

/-- C10 counterexample: the token stream of `urn` is one complete valid
expression, yet appending a single `(` token makes the parse fail — the
parser absorbs the `(` as the argument list of the parenthesis-less call and
then errors looking for an argument — so trailing tokens are not always
silently ignored. -/
theorem parse_trailing_claim_counterexample :
    ParseRSExpr trivialXmlPathLib unquoteOk [Token.ident "urn"]
      = .ok (.fnCall urnFn [])
    ∧ ParseRSExpr trivialXmlPathLib unquoteOk [Token.ident "urn", Token.chr '(']
        = .error (.expectedString TokKind.eof) :=
  ⟨rfl, rfl⟩

/-- The parser state over `ts1 ++ ts2` that corresponds to state `s` of a
run over `ts1` alone: the pending `ts2` is appended behind the remaining
input, and a run that had exhausted `ts1` (EOF lookahead) stands at the
start of `ts2`. -/
def extendState (ts2 : List Token) (s : PState) : PState :=
  if s.tok = Token.eof then stateOf ts2 else ⟨s.tok, s.rest ++ ts2⟩

theorem extendState_tok {ts2 : List Token} {s : PState} (h : s.tok ≠ Token.eof) :
    extendState ts2 s = ⟨s.tok, s.rest ++ ts2⟩ :=
  if_neg h

theorem stateOf_append {ts1 ts2 : List Token} (h : Token.eof ∉ ts1) :
    stateOf (ts1 ++ ts2) = extendState ts2 (stateOf ts1) := by
  cases ts1 with
  | nil => simp [stateOf, extendState]
  | cons t r =>
    have ht : t ≠ Token.eof := fun he => h (he ▸ List.mem_cons_self t r)
    simp [stateOf, extendState, ht]

theorem nextToken_extendState (ts2 : List Token) {s : PState}
    (ht : s.tok ≠ Token.eof) (hr : Token.eof ∉ s.rest) :
    nextToken (extendState ts2 s) = extendState ts2 (nextToken s) := by
  rw [extendState_tok ht]
  cases hrst : s.rest with
  | nil => cases ts2 <;> simp [nextToken, extendState, stateOf, ht, hrst]
  | cons x xs =>
    have hx : x ≠ Token.eof := fun he => hr (by rw [hrst, he]; exact List.mem_cons_self _ _)
    simp [nextToken, extendState, ht, hrst, hx]

theorem nextToken_rest_wf {s : PState} (hr : Token.eof ∉ s.rest) :
    Token.eof ∉ (nextToken s).rest := by
  unfold nextToken
  by_cases ht : s.tok = Token.eof
  · rw [if_pos ht]; exact hr
  · rw [if_neg ht]
    cases hrst : s.rest with
    | nil => simp
    | cons x xs =>
      intro hmem
      exact hr (by rw [hrst]; exact List.mem_cons_of_mem _ hmem)

/-- A token of a non-EOF class is not the EOF token. -/
theorem tok_ne_eof {t : Token} {k : TokKind} (h : t.kind = k)
    (hk : k ≠ TokKind.eof) : t ≠ Token.eof := by
  intro he
  rw [he] at h
  exact hk h.symm

theorem consume_extendState (ts2 : List Token) {k : TokKind}
    (hk : k ≠ TokKind.eof) {s : PState} (hr : Token.eof ∉ s.rest)
    {txt : String} {s1 : PState} (h : consume k s = .ok (txt, s1)) :
    consume k (extendState ts2 s) = .ok (txt, extendState ts2 s1)
    ∧ Token.eof ∉ s1.rest := by
  unfold consume at h
  by_cases hkk : s.tok.kind = k
  case neg => rw [if_neg hkk] at h; nomatch h
  case pos =>
    rw [if_pos hkk] at h
    obtain ⟨htxt, hs1⟩ := Prod.mk.inj (Except.ok.inj h)
    have ht : s.tok ≠ Token.eof := tok_ne_eof hkk hk
    have htk : (extendState ts2 s).tok = s.tok := by rw [extendState_tok ht]
    have hcomm := nextToken_extendState ts2 ht hr
    refine ⟨?_, hs1 ▸ nextToken_rest_wf hr⟩
    unfold consume
    rw [htk, if_pos hkk, hcomm, hs1, htxt]

theorem readString_ok_tok {u : String → Except String String} {s : PState}
    {r : String × PState} (h : readString u s = .ok r) : s.tok ≠ Token.eof := by
  intro he
  unfold readString at h
  simp only [he] at h
  nomatch h

theorem readString_extendState (ts2 : List Token)
    {u : String → Except String String} {s : PState} (hr : Token.eof ∉ s.rest)
    {v : String} {s1 : PState} (h : readString u s = .ok (v, s1)) :
    readString u (extendState ts2 s) = .ok (v, extendState ts2 s1)
    ∧ Token.eof ∉ s1.rest := by
  have ht : s.tok ≠ Token.eof := readString_ok_tok h
  have htk : (extendState ts2 s).tok = s.tok := by rw [extendState_tok ht]
  have hcomm := nextToken_extendState ts2 ht hr
  unfold readString at h ⊢
  rw [htk]
  cases htok : s.tok <;> rw [htok] at h
  case str raw =>
    cases hu : u raw <;> simp only [hu] at h
    case error => nomatch h
    case ok w =>
      obtain ⟨hv, hs1⟩ := Prod.mk.inj (Except.ok.inj h)
      refine ⟨?_, hs1 ▸ nextToken_rest_wf hr⟩
      simp only [hu, hcomm, hs1, hv]
  case rawStr raw =>
    cases hu : u raw <;> simp only [hu] at h
    case error => nomatch h
    case ok w =>
      obtain ⟨hv, hs1⟩ := Prod.mk.inj (Except.ok.inj h)
      refine ⟨?_, hs1 ▸ nextToken_rest_wf hr⟩
      simp only [hu, hcomm, hs1, hv]
  all_goals nomatch h

theorem parseAtom_ok_tok {u : String → Except String String} {s : PState}
    {r : RSExprAst × PState} (h : parseAtom u s = .ok r) : s.tok ≠ Token.eof := by
  unfold parseAtom at h
  cases hr : readString u s with
  | error e => simp only [hr] at h; nomatch h
  | ok p => exact readString_ok_tok hr

theorem parseAtom_extendState {ts2 : List Token}
    {u : String → Except String String} {s : PState} (hw : Token.eof ∉ s.rest)
    {a : RSExprAst} {s1 : PState} (h : parseAtom u s = .ok (a, s1)) :
    parseAtom u (extendState ts2 s) = .ok (a, extendState ts2 s1)
    ∧ Token.eof ∉ s1.rest := by
  unfold parseAtom at h ⊢
  cases hr : readString u s with
  | error e => simp only [hr] at h; nomatch h
  | ok p =>
    obtain ⟨v, sB⟩ := p
    simp only [hr] at h
    obtain ⟨hrx, hwB⟩ := readString_extendState ts2 hw hr
    simp only [hrx]
    obtain ⟨ha, hs1⟩ := Prod.mk.inj (Except.ok.inj h)
    exact ⟨by rw [ha, hs1], hs1 ▸ hwB⟩

/-- `parseExpr` never succeeds from an EOF lookahead (it falls through to
`parseAtom`, which demands a string token). -/
theorem parseExpr_eof_tok {Path Doc : Type} (lib : XmlPathLib Path Doc)
    (u : String → Except String String) (f : Nat) {s : PState}
    (h : s.tok = Token.eof) :
    ∀ r, parseExpr lib u f s ≠ .ok r := by
  intro r hok
  cases f with
  | zero => simp [parseExpr] at hok
  | succ f =>
    simp only [parseExpr] at hok
    rw [if_neg (by rw [h]; intro hh; nomatch hh)] at hok
    simp [parseAtom, readString, h] at hok

/-- Extension lemma: a successful parse over a stream is reproduced verbatim
over the stream with `ts2` appended, provided `ts2` does not begin with `(`
(the one lookahead a completed parse can still examine, at the end of a
parenthesis-less function call).  The `Token.eof ∉ rest` side conditions say
the streams are scanner-produced: EOF only ever appears as the final
lookahead. -/
theorem parser_extend {Path Doc : Type} (lib : XmlPathLib Path Doc)
    (u : String → Except String String) (ts2 : List Token)
    (hts2 : (stateOf ts2).tok.kind ≠ TokKind.chr '(') :
    ∀ f : Nat,
      (∀ s a s1, Token.eof ∉ s.rest → parseExpr lib u f s = .ok (a, s1) →
        parseExpr lib u f (extendState ts2 s) = .ok (a, extendState ts2 s1)
        ∧ Token.eof ∉ s1.rest)
      ∧ (∀ s a s1, Token.eof ∉ s.rest → parseFn lib u f s = .ok (a, s1) →
        parseFn lib u f (extendState ts2 s) = .ok (a, extendState ts2 s1)
        ∧ Token.eof ∉ s1.rest)
      ∧ (∀ args s res s1, Token.eof ∉ s.rest →
        parseFnArgsLoop lib u f args s = .ok (res, s1) →
        parseFnArgsLoop lib u f args (extendState ts2 s) = .ok (res, extendState ts2 s1)
        ∧ Token.eof ∉ s1.rest) := by
  intro f
  induction f with
  | zero =>
    refine ⟨fun s a s1 hw h => ?_, fun s a s1 hw h => ?_,
      fun args s res s1 hw h => ?_⟩
    · simp [parseExpr] at h
    · simp [parseFn] at h
    · simp [parseFnArgsLoop] at h
  | succ f ih =>
    obtain ⟨ihE, ihF, ihA⟩ := ih
    refine ⟨fun s a s1 hw h => ?_, fun s a s1 hw h => ?_,
      fun args s res s1 hw h => ?_⟩
    · simp only [parseExpr] at h ⊢
      by_cases hk : s.tok.kind = TokKind.ident
      · have ht : s.tok ≠ Token.eof := tok_ne_eof hk (by intro hh; nomatch hh)
        have htk : (extendState ts2 s).tok = s.tok := by rw [extendState_tok ht]
        rw [if_pos hk] at h
        rw [htk, if_pos hk]
        exact ihF s a s1 hw h
      · rw [if_neg hk] at h
        have ht : s.tok ≠ Token.eof := parseAtom_ok_tok h
        have htk : (extendState ts2 s).tok = s.tok := by rw [extendState_tok ht]
        rw [htk, if_neg hk]
        exact parseAtom_extendState hw h
    · simp only [parseFn] at h ⊢
      cases hc : consume TokKind.ident s with
      | error e => simp only [hc] at h; nomatch h
      | ok p =>
        obtain ⟨nm, sA⟩ := p
        simp only [hc] at h
        obtain ⟨hcx, hwA⟩ :=
          consume_extendState ts2 (by intro hh; nomatch hh) hw hc
        simp only [hcx]
        cases hl : NATIVE_FUNCTIONS lib nm with
        | none => simp only [hl] at h; nomatch h
        | some fn =>
          simp only [hl] at h ⊢
          by_cases hp : sA.tok.kind = TokKind.chr '('
          · have htA : sA.tok ≠ Token.eof := tok_ne_eof hp (by intro hh; nomatch hh)
            have htkA : (extendState ts2 sA).tok = sA.tok := by rw [extendState_tok htA]
            rw [if_pos hp] at h
            rw [htkA, if_pos hp]
            have hcomm := nextToken_extendState ts2 htA hwA
            rw [hcomm]
            have hw2 : Token.eof ∉ (nextToken sA).rest := nextToken_rest_wf hwA
            cases hA : parseFnArgsLoop lib u f [] (nextToken sA) with
            | error e => simp only [hA] at h; nomatch h
            | ok q =>
              obtain ⟨args2, s3⟩ := q
              simp only [hA] at h
              obtain ⟨hAx, hw3⟩ := ihA [] (nextToken sA) args2 s3 hw2 hA
              simp only [hAx]
              cases hc2 : consume (TokKind.chr ')') s3 with
              | error e => simp only [hc2] at h; nomatch h
              | ok r2 =>
                obtain ⟨txt, s4⟩ := r2
                simp only [hc2] at h
                obtain ⟨hc2x, hw4⟩ :=
                  consume_extendState ts2 (by intro hh; nomatch hh) hw3 hc2
                simp only [hc2x]
                obtain ⟨ha, hs1⟩ := Prod.mk.inj (Except.ok.inj h)
                exact ⟨by rw [ha, hs1], hs1 ▸ hw4⟩
          · rw [if_neg hp] at h
            obtain ⟨ha, hs1⟩ := Prod.mk.inj (Except.ok.inj h)
            by_cases htA : sA.tok = Token.eof
            · have hext : extendState ts2 sA = stateOf ts2 := by
                unfold extendState
                rw [if_pos htA]
              rw [hext, if_neg hts2]
              exact ⟨by rw [ha, ← hs1, hext], hs1 ▸ hwA⟩
            · have htkA : (extendState ts2 sA).tok = sA.tok := by
                rw [extendState_tok htA]
              rw [htkA, if_neg hp]
              exact ⟨by rw [ha, hs1], hs1 ▸ hwA⟩
    · simp only [parseFnArgsLoop] at h ⊢
      by_cases hk : s.tok.kind = TokKind.chr ')'
      · rw [if_pos hk] at h
        obtain ⟨hres, hs1⟩ := Prod.mk.inj (Except.ok.inj h)
        have ht : s.tok ≠ Token.eof := tok_ne_eof hk (by intro hh; nomatch hh)
        have htk : (extendState ts2 s).tok = s.tok := by rw [extendState_tok ht]
        rw [htk, if_pos hk]
        exact ⟨by rw [hres, hs1], hs1 ▸ hw⟩
      · rw [if_neg hk] at h
        have ht : s.tok ≠ Token.eof := by
          intro he
          by_cases hl : 0 < args.length
          · rw [if_pos hl] at h
            have hcerr : consume (TokKind.chr ',') s
                = .error (.etoken (TokKind.chr ',') s.tok.kind) := by
              unfold consume
              rw [if_neg (by rw [he]; intro hh; nomatch hh)]
            simp only [hcerr] at h
            nomatch h
          · rw [if_neg hl] at h
            cases hE : parseExpr lib u f s with
            | error e => simp only [hE] at h; nomatch h
            | ok q => exact parseExpr_eof_tok lib u f he q hE
        have htk : (extendState ts2 s).tok = s.tok := by rw [extendState_tok ht]
        rw [htk, if_neg hk]
        by_cases hl : 0 < args.length
        · rw [if_pos hl] at h ⊢
          cases hcc : consume (TokKind.chr ',') s with
          | error e => simp only [hcc] at h; nomatch h
          | ok p =>
            obtain ⟨txt, sB⟩ := p
            simp only [hcc] at h
            obtain ⟨hccx, hwB⟩ :=
              consume_extendState ts2 (by intro hh; nomatch hh) hw hcc
            simp only [hccx]
            cases hE : parseExpr lib u f sB with
            | error e => simp only [hE] at h; nomatch h
            | ok q =>
              obtain ⟨arg, sC⟩ := q
              simp only [hE] at h
              obtain ⟨hEx, hwC⟩ := ihE sB arg sC hwB hE
              simp only [hEx]
              exact ihA (args ++ [arg]) sC res s1 hwC h
        · rw [if_neg hl] at h ⊢
          cases hE : parseExpr lib u f s with
          | error e => simp only [hE] at h; nomatch h
          | ok q =>
            obtain ⟨arg, sC⟩ := q
            simp only [hE] at h
            obtain ⟨hEx, hwC⟩ := ihE s arg sC hw hE
            simp only [hEx]
            exact ihA (args ++ [arg]) sC res s1 hwC h

/-- Fuel monotonicity: a successful parse stays successful with the same
result under any larger fuel. -/
theorem parser_fuel_mono {Path Doc : Type} (lib : XmlPathLib Path Doc)
    (u : String → Except String String) :
    ∀ f f' : Nat, f ≤ f' →
      (∀ s r, parseExpr lib u f s = .ok r → parseExpr lib u f' s = .ok r)
      ∧ (∀ s r, parseFn lib u f s = .ok r → parseFn lib u f' s = .ok r)
      ∧ (∀ args s r, parseFnArgsLoop lib u f args s = .ok r →
          parseFnArgsLoop lib u f' args s = .ok r) := by
  intro f
  induction f with
  | zero =>
    intro f' hf
    refine ⟨fun s r h => ?_, fun s r h => ?_, fun args s r h => ?_⟩
    · simp [parseExpr] at h
    · simp [parseFn] at h
    · simp [parseFnArgsLoop] at h
  | succ f ih =>
    intro f' hf
    obtain ⟨f2, rfl⟩ : ∃ f2, f' = f2 + 1 := ⟨f' - 1, by omega⟩
    have hf2 : f ≤ f2 := by omega
    obtain ⟨ihE, ihF, ihA⟩ := ih f2 hf2
    refine ⟨fun s r h => ?_, fun s r h => ?_, fun args s r h => ?_⟩
    · simp only [parseExpr] at h ⊢
      by_cases hk : s.tok.kind = TokKind.ident
      · rw [if_pos hk] at h ⊢
        exact ihF s r h
      · rw [if_neg hk] at h ⊢
        exact h
    · simp only [parseFn] at h ⊢
      cases hc : consume TokKind.ident s with
      | error e => simp only [hc] at h; nomatch h
      | ok p =>
        obtain ⟨nm, sA⟩ := p
        simp only [hc] at h ⊢
        cases hl : NATIVE_FUNCTIONS lib nm with
        | none => simp only [hl] at h; nomatch h
        | some fn =>
          simp only [hl] at h ⊢
          by_cases hp : sA.tok.kind = TokKind.chr '('
          · rw [if_pos hp] at h ⊢
            cases hA : parseFnArgsLoop lib u f [] (nextToken sA) with
            | error e => simp only [hA] at h; nomatch h
            | ok q =>
              obtain ⟨args2, s3⟩ := q
              simp only [hA] at h
              simp only [ihA [] (nextToken sA) (args2, s3) hA]
              exact h
          · rw [if_neg hp] at h ⊢
            exact h
    · simp only [parseFnArgsLoop] at h ⊢
      by_cases hk : s.tok.kind = TokKind.chr ')'
      · rw [if_pos hk] at h ⊢
        exact h
      · rw [if_neg hk] at h ⊢
        by_cases hl : 0 < args.length
        · rw [if_pos hl] at h ⊢
          cases hcc : consume (TokKind.chr ',') s with
          | error e => simp only [hcc] at h; nomatch h
          | ok p =>
            obtain ⟨txt, sB⟩ := p
            simp only [hcc] at h ⊢
            cases hE : parseExpr lib u f sB with
            | error e => simp only [hE] at h; nomatch h
            | ok q =>
              obtain ⟨arg, sC⟩ := q
              simp only [hE] at h
              simp only [ihE sB (arg, sC) hE]
              exact ihA (args ++ [arg]) sC r h
        · rw [if_neg hl] at h ⊢
          cases hE : parseExpr lib u f s with
          | error e => simp only [hE] at h; nomatch h
          | ok q =>
            obtain ⟨arg, sC⟩ := q
            simp only [hE] at h
            simp only [ihE s (arg, sC) hE]
            exact ihA (args ++ [arg]) sC r h

/-- C10 (amended): `ParseRSExpr` stops after one complete expression and
does not require the whole input to be consumed: when a token-stream prefix
parses as one complete valid expression (consuming exactly the prefix) and
the trailing tokens do not begin with `(`, parsing the whole input succeeds
and returns the AST of the prefix, the trailing tokens silently ignored.  (A
trailing part beginning with `(` can instead be absorbed as the argument
list of a trailing parenthesis-less call — the counterexample.) -/
theorem parse_ignores_trailing_tokens {Path Doc : Type} (lib : XmlPathLib Path Doc)
    (u : String → Except String String) (ts1 ts2 : List Token) (ast : RSExprAst)
    (h1 : Token.eof ∉ ts1)
    (h2 : (stateOf ts2).tok.kind ≠ TokKind.chr '(')
    (h : parseExpr lib u (2 * ts1.length + 4) (stateOf ts1)
          = .ok (ast, ⟨Token.eof, []⟩)) :
    ParseRSExpr lib u ts1 = .ok ast
    ∧ ParseRSExpr lib u (ts1 ++ ts2) = .ok ast := by
  constructor
  · unfold ParseRSExpr
    simp only [h]
  · unfold ParseRSExpr
    have hwf : Token.eof ∉ (stateOf ts1).rest := by
      cases ts1 with
      | nil => simp [stateOf]
      | cons t r =>
        intro hm
        exact h1 (List.mem_cons_of_mem t hm)
    have hext := ((parser_extend lib u ts2 h2 (2 * ts1.length + 4)).1
      (stateOf ts1) ast ⟨Token.eof, []⟩ hwf h).1
    rw [← stateOf_append h1] at hext
    have hmono := (parser_fuel_mono lib u (2 * ts1.length + 4)
      (2 * (ts1 ++ ts2).length + 4)
      (by rw [List.length_append]; omega)).1 (stateOf (ts1 ++ ts2)) _ hext
    simp only [hmono]

/-- Witness for C10 (amended): `urn` alone is a complete expression; with
the trailing junk `) foo` appended the parse still returns the same AST. -/
theorem parse_ignores_trailing_tokens_witness :
    ParseRSExpr trivialXmlPathLib unquoteOk [Token.ident "urn"]
      = .ok (.fnCall urnFn [])
    ∧ ParseRSExpr trivialXmlPathLib unquoteOk
        [Token.ident "urn", Token.chr ')', Token.ident "foo"]
      = .ok (.fnCall urnFn []) :=
  parse_ignores_trailing_tokens trivialXmlPathLib unquoteOk
    [Token.ident "urn"] [Token.chr ')', Token.ident "foo"] (.fnCall urnFn [])
    (by decide) (by decide) rfl
